import Mathlib

/-!
# Verification of the `julianday` crate

A shallow embedding of `src/lib.rs`: conversions between proleptic-Gregorian
calendar dates (chrono's `NaiveDate`) and Julian / Modified Julian day numbers
via the Fliegel–Van Flandern algorithm.

Machine integers are modelled as `Nat` / `Int` with explicit wrapping:
the Rust code computes `JulianDay::from` entirely in `u32` arithmetic
(the year is cast `as u32`), so that computation is embedded with all
operations reduced modulo `2 ^ 32`; `JulianDay::to_date` computes in `i32`
with truncating division (`Int.tdiv`), which is exact (no overflow) on the
ranges considered here.  The fallible `NaiveDate` constructor is embedded
as an `Option`-returning function.
-/

/-- Wrapping 32-bit unsigned addition (`u32` `+` in release mode). -/
def wadd (x y : Nat) : Nat := (x + y) % 2 ^ 32

/-- Wrapping 32-bit unsigned subtraction (`u32` `-`); for `x y < 2 ^ 32`
this is two's-complement wraparound. -/
def wsub (x y : Nat) : Nat := (2 ^ 32 + x - y) % 2 ^ 32

/-- Wrapping 32-bit unsigned multiplication (`u32` `*`). -/
def wmul (x y : Nat) : Nat := (x * y) % 2 ^ 32

/-- The cast `i32 as u32` (two's-complement reinterpretation). -/
def i32ToU32 (x : Int) : Nat := (x % 2 ^ 32).toNat

/-- The cast `u32 as i32` (two's-complement reinterpretation). -/
def u32ToI32 (x : Nat) : Int := if x % 2 ^ 32 < 2 ^ 31 then (x % 2 ^ 32 : Int) else (x % 2 ^ 32 : Int) - 2 ^ 32

/-- Modelled from the spec: the external `CalendarDate` collaborator
(chrono's `NaiveDate`, not part of this repository): an immutable value with a
signed integer `year` (`i32`) and unsigned `month` and `day` (`u32`). -/
structure NaiveDate where
  year : Int
  month : Nat
  day : Nat
deriving DecidableEq

/-- Modelled from the spec: proleptic-Gregorian leap-year test used by the
external date type to validate a day-of-month. -/
def isLeapYear (y : Int) : Bool := (y % 4 == 0 && y % 100 != 0) || y % 400 == 0

/-- Modelled from the spec: the number of days of month `m` of year `y`
in the proleptic Gregorian calendar. -/
def daysInMonth (y : Int) (m : Nat) : Nat :=
  if m = 2 then (if isLeapYear y then 29 else 28)
  else if m = 4 ∨ m = 6 ∨ m = 9 ∨ m = 11 then 30
  else 31

/-- Modelled from the spec: chrono's bound on representable years
(`NaiveDate` stores the year in `i32 >> 13`). -/
def maxYear : Int := 262143

/-- Modelled from the spec: lower bound on representable years. -/
def minYear : Int := -262144

/-- Modelled from the spec: the validating constructor of the external date
type (chrono's `NaiveDate::from_ymd_opt`): accepts exactly the valid
proleptic-Gregorian dates within the representable year range. -/
def NaiveDate.fromYmdOpt (y : Int) (m d : Nat) : Option NaiveDate :=
  if minYear ≤ y ∧ y ≤ maxYear ∧ 1 ≤ m ∧ m ≤ 12 ∧ 1 ≤ d ∧ d ≤ daysInMonth y m
  then some ⟨y, m, d⟩ else none

/-- A `NaiveDate` value actually produced by the external date type, i.e. a
valid date: the validating constructor accepts its fields. -/
def NaiveDate.Valid (dt : NaiveDate) : Prop :=
  NaiveDate.fromYmdOpt dt.year dt.month dt.day = some dt

instance (dt : NaiveDate) : Decidable dt.Valid := by
  unfold NaiveDate.Valid; infer_instance

/-- The struct `JulianDay(i32)`. -/
structure JulianDay where
  day : Int
deriving DecidableEq

/-- The constructor `JulianDay::new`. -/
def JulianDay.new (day : Int) : JulianDay := ⟨day⟩

/-- The accessor `JulianDay::inner`. -/
def JulianDay.inner (jd : JulianDay) : Int := jd.day

/-- The conversion `impl From<NaiveDate> for JulianDay` from `src/lib.rs`:
`day`, `month` are `u32`, the year is cast `as u32`, the whole computation is
`u32` arithmetic (wrapping, modulo `2 ^ 32`), and the result is cast `as i32`. -/
def JulianDay.fromDate (date : NaiveDate) : JulianDay :=
  let day := date.day
  let month := date.month
  let year := i32ToU32 date.year
  let a := wsub 14 month / 12
  let y := wsub (wadd year 4800) a
  let m := wsub (wadd month (wmul 12 a)) 3
  let jd := wsub (wadd (wsub (wadd (wadd (wadd day (wadd (wmul 153 m) 2 / 5)) (wmul y 365)) (y / 4)) (y / 100)) (y / 400)) 32045
  ⟨u32ToI32 jd⟩

/-- The year/month/day computation inside `JulianDay::to_date` (`src/lib.rs`):
`i32` arithmetic with truncating division, returned as `(year, month, day)`. -/
def toDateTriple (jd : Int) : Int × Int × Int :=
  let a := jd + 32044
  let b := (4 * a + 3).tdiv 146097
  let c := a - (b * 146097).tdiv 4
  let d := (4 * c + 3).tdiv 1461
  let e := c - (1461 * d).tdiv 4
  let m := (5 * e + 2).tdiv 153
  let day := e - (153 * m + 2).tdiv 5 + 1
  let month := m + 3 - 12 * m.tdiv 10
  let year := b * 100 + d - 4800 + m.tdiv 10
  (year, month, day)

/-- The method `JulianDay::to_date`: computes the triple and calls
`NaiveDate::from_ymd(year as i32, month as u32, day as u32)`. -/
def JulianDay.to_date (jd : JulianDay) : Option NaiveDate :=
  let t := toDateTriple jd.inner
  NaiveDate.fromYmdOpt t.1 (i32ToU32 t.2.1) (i32ToU32 t.2.2)

/-- The struct `ModifiedJulianDay(i32)`. -/
structure ModifiedJulianDay where
  day : Int
deriving DecidableEq

/-- The constructor `ModifiedJulianDay::new`. -/
def ModifiedJulianDay.new (day : Int) : ModifiedJulianDay := ⟨day⟩

/-- The accessor `ModifiedJulianDay::inner`. -/
def ModifiedJulianDay.inner (mjd : ModifiedJulianDay) : Int := mjd.day

/-- The conversion `impl From<NaiveDate> for ModifiedJulianDay`:
convert to `JulianDay`, then subtract `2400001`. -/
def ModifiedJulianDay.fromDate (date : NaiveDate) : ModifiedJulianDay :=
  ⟨(JulianDay.fromDate date).inner - 2400001⟩

/-- The method `ModifiedJulianDay::to_date`: add `2400001` and delegate to
`JulianDay::to_date`. -/
def ModifiedJulianDay.to_date (mjd : ModifiedJulianDay) : Option NaiveDate :=
  (JulianDay.new (mjd.inner + 2400001)).to_date

/-- The Fliegel–Van Flandern formula of spec §4.1, written over ℤ with
floor division exactly as the spec states it (`/` on ℤ with a positive
divisor is floor division). -/
def specJdn (year month day : Int) : Int :=
  let a := (14 - month) / 12
  let y := year + 4800 - a
  let m := month + 12 * a - 3
  day + (153 * m + 2) / 5 + 365 * y + y / 4 - y / 100 + y / 400 - 32045

/-- The inverse Fliegel–Van Flandern algorithm of spec §4.2, written over ℤ
with floor division exactly as the spec states it. -/
def specFromJdn (jdn : Int) : Int × Int × Int :=
  let a := jdn + 32044
  let b := (4 * a + 3) / 146097
  let c := a - b * 146097 / 4
  let d := (4 * c + 3) / 1461
  let e := c - 1461 * d / 4
  let m := (5 * e + 2) / 153
  let day := e - (153 * m + 2) / 5 + 1
  let month := m + 3 - 12 * (m / 10)
  let year := b * 100 + d - 4800 + m / 10
  (year, month, day)

/-- Propositional form of the leap-year test. -/
def isLeapProp (y : Int) : Prop := (y % 4 = 0 ∧ ¬ y % 100 = 0) ∨ y % 400 = 0

/-- Validity of a year/month/day triple, phrased arithmetically over ℤ
(equivalent to the external date type's month/day validation). -/
def validYmd (y m d : Int) : Prop :=
  1 ≤ m ∧ m ≤ 12 ∧ 1 ≤ d ∧
    (m = 2 → (isLeapProp y → d ≤ 29) ∧ (¬ isLeapProp y → d ≤ 28)) ∧
    ((m = 4 ∨ m = 6 ∨ m = 9 ∨ m = 11) → d ≤ 30) ∧ d ≤ 31

/-- Modelled from the spec: the successor ("next") calendar day, used to state
the monotonic-step property for consecutive calendar days `D` and `D+1`. -/
def NaiveDate.next (dt : NaiveDate) : NaiveDate :=
  if dt.day < daysInMonth dt.year dt.month then ⟨dt.year, dt.month, dt.day + 1⟩
  else if dt.month < 12 then ⟨dt.year, dt.month + 1, 1⟩
  else ⟨dt.year + 1, 1, 1⟩

/-- Chronological strict order on calendar dates (lexicographic on
year, month, day). -/
def NaiveDate.before (d1 d2 : NaiveDate) : Prop :=
  d1.year < d2.year ∨
    (d1.year = d2.year ∧ (d1.month < d2.month ∨ (d1.month = d2.month ∧ d1.day < d2.day)))

instance (d1 d2 : NaiveDate) : Decidable (d1.before d2) := by
  unfold NaiveDate.before; infer_instance

/-- Stated from the observed behaviour of the code: the §4.1 computation
carried out entirely in unsigned 32-bit (wrapping) arithmetic, parameterised
by the already-wrapped year.  `JulianDay::from` is exactly this computation
applied to `year as u32`, reinterpreted `as i32`. -/
def wrapJdnU32 (yearU month day : Nat) : Nat :=
  let a := wsub 14 month / 12
  let y := wsub (wadd yearU 4800) a
  let m := wsub (wadd month (wmul 12 a)) 3
  wsub (wadd (wsub (wadd (wadd (wadd day (wadd (wmul 153 m) 2 / 5)) (wmul y 365)) (y / 4)) (y / 100)) (y / 400)) 32045

/-!
## Core arithmetic lemmas

The two Fliegel–Van Flandern compositions, the bridge from the `i32`
truncating-division code to the spec's floor-division formulas, and the
bridge from the `u32` wrapping code to the spec's formula.
-/

/-- Casting `u32 as i32` after a wrapping subtraction of a small constant
from a small value is plain integer subtraction. -/
theorem u32ToI32_wsub (t k : Nat) (ht : t < 2 ^ 31) (hk : k ≤ 2 ^ 31) :
    u32ToI32 (wsub t k) = (t : Int) - k := by
  unfold u32ToI32 wsub
  split <;> omega

/-- The inverse algorithm recovers the March-based year `Y` and day-of-year
`t` from which a day count was built.  The guard excludes the one point
(`t = 365` in a non-leap year) that no valid date produces. -/
theorem specFromJdn_comp (Y t : Int) (ht0 : 0 ≤ t) (ht1 : t ≤ 365)
    (hg : t = 365 → Y % 4 = 3 ∧ (Y % 100 = 99 → Y % 400 = 399)) :
    specFromJdn (365 * Y + Y / 4 - Y / 100 + Y / 400 + t - 32044) =
      (Y - 4800 + (5 * t + 2) / 153 / 10,
       (5 * t + 2) / 153 + 3 - 12 * ((5 * t + 2) / 153 / 10),
       t - (153 * ((5 * t + 2) / 153) + 2) / 5 + 1) := by
  simp only [specFromJdn, Prod.mk.injEq]
  rw [show 365 * Y + Y / 4 - Y / 100 + Y / 400 + t - 32044 + 32044
        = 365 * Y + Y / 4 - Y / 100 + Y / 400 + t by ring]
  rw [show (4 * (365 * Y + Y / 4 - Y / 100 + Y / 400 + t) + 3) / 146097 = Y / 100 from by omega]
  rw [show 365 * Y + Y / 4 - Y / 100 + Y / 400 + t - Y / 100 * 146097 / 4
        = 365 * (Y % 100) + (Y % 100) / 4 + t from by omega]
  rw [show (4 * (365 * (Y % 100) + (Y % 100) / 4 + t) + 3) / 1461 = Y % 100 from by omega]
  rw [show 365 * (Y % 100) + (Y % 100) / 4 + t - 1461 * (Y % 100) / 4 = t from by omega]
  refine ⟨by omega, rfl, rfl⟩

/-- Forward/backward roundtrip of the spec's formulas: the inverse algorithm
inverts the forward algorithm on every valid proleptic-Gregorian date. -/
theorem specFromJdn_specJdn (y m d : Int) (h : validYmd y m d) :
    specFromJdn (specJdn y m d) = (y, m, d) := by
  obtain ⟨hm1, hm2, hd1, hfeb, h30, h31⟩ := h
  interval_cases m
  · rw [show specJdn y 1 d
        = 365 * (y + 4799) + (y + 4799) / 4 - (y + 4799) / 100 + (y + 4799) / 400 + (d + 305) - 32044
        from by simp only [specJdn]; omega]
    rw [specFromJdn_comp (y + 4799) (d + 305) (by omega) (by omega) (by omega)]
    have hm : (5 * (d + 305) + 2) / 153 = 10 := by omega
    simp only [Prod.mk.injEq]
    refine ⟨by omega, by omega, by omega⟩
  · have hd2 := hfeb rfl
    unfold isLeapProp at hd2
    rw [show specJdn y 2 d
        = 365 * (y + 4799) + (y + 4799) / 4 - (y + 4799) / 100 + (y + 4799) / 400 + (d + 336) - 32044
        from by simp only [specJdn]; omega]
    rw [specFromJdn_comp (y + 4799) (d + 336) (by omega) (by omega) (by omega)]
    have hm : (5 * (d + 336) + 2) / 153 = 11 := by omega
    simp only [Prod.mk.injEq]
    refine ⟨by omega, by omega, by omega⟩
  · rw [show specJdn y 3 d
        = 365 * (y + 4800) + (y + 4800) / 4 - (y + 4800) / 100 + (y + 4800) / 400 + (d - 1) - 32044
        from by simp only [specJdn]; omega]
    rw [specFromJdn_comp (y + 4800) (d - 1) (by omega) (by omega) (by omega)]
    have hm : (5 * (d - 1) + 2) / 153 = 0 := by omega
    simp only [Prod.mk.injEq]
    refine ⟨by omega, by omega, by omega⟩
  · have hd2 := h30 (by norm_num)
    rw [show specJdn y 4 d
        = 365 * (y + 4800) + (y + 4800) / 4 - (y + 4800) / 100 + (y + 4800) / 400 + (d + 30) - 32044
        from by simp only [specJdn]; omega]
    rw [specFromJdn_comp (y + 4800) (d + 30) (by omega) (by omega) (by omega)]
    have hm : (5 * (d + 30) + 2) / 153 = 1 := by omega
    simp only [Prod.mk.injEq]
    refine ⟨by omega, by omega, by omega⟩
  · rw [show specJdn y 5 d
        = 365 * (y + 4800) + (y + 4800) / 4 - (y + 4800) / 100 + (y + 4800) / 400 + (d + 60) - 32044
        from by simp only [specJdn]; omega]
    rw [specFromJdn_comp (y + 4800) (d + 60) (by omega) (by omega) (by omega)]
    have hm : (5 * (d + 60) + 2) / 153 = 2 := by omega
    simp only [Prod.mk.injEq]
    refine ⟨by omega, by omega, by omega⟩
  · have hd2 := h30 (by norm_num)
    rw [show specJdn y 6 d
        = 365 * (y + 4800) + (y + 4800) / 4 - (y + 4800) / 100 + (y + 4800) / 400 + (d + 91) - 32044
        from by simp only [specJdn]; omega]
    rw [specFromJdn_comp (y + 4800) (d + 91) (by omega) (by omega) (by omega)]
    have hm : (5 * (d + 91) + 2) / 153 = 3 := by omega
    simp only [Prod.mk.injEq]
    refine ⟨by omega, by omega, by omega⟩
  · rw [show specJdn y 7 d
        = 365 * (y + 4800) + (y + 4800) / 4 - (y + 4800) / 100 + (y + 4800) / 400 + (d + 121) - 32044
        from by simp only [specJdn]; omega]
    rw [specFromJdn_comp (y + 4800) (d + 121) (by omega) (by omega) (by omega)]
    have hm : (5 * (d + 121) + 2) / 153 = 4 := by omega
    simp only [Prod.mk.injEq]
    refine ⟨by omega, by omega, by omega⟩
  · rw [show specJdn y 8 d
        = 365 * (y + 4800) + (y + 4800) / 4 - (y + 4800) / 100 + (y + 4800) / 400 + (d + 152) - 32044
        from by simp only [specJdn]; omega]
    rw [specFromJdn_comp (y + 4800) (d + 152) (by omega) (by omega) (by omega)]
    have hm : (5 * (d + 152) + 2) / 153 = 5 := by omega
    simp only [Prod.mk.injEq]
    refine ⟨by omega, by omega, by omega⟩
  · have hd2 := h30 (by norm_num)
    rw [show specJdn y 9 d
        = 365 * (y + 4800) + (y + 4800) / 4 - (y + 4800) / 100 + (y + 4800) / 400 + (d + 183) - 32044
        from by simp only [specJdn]; omega]
    rw [specFromJdn_comp (y + 4800) (d + 183) (by omega) (by omega) (by omega)]
    have hm : (5 * (d + 183) + 2) / 153 = 6 := by omega
    simp only [Prod.mk.injEq]
    refine ⟨by omega, by omega, by omega⟩
  · rw [show specJdn y 10 d
        = 365 * (y + 4800) + (y + 4800) / 4 - (y + 4800) / 100 + (y + 4800) / 400 + (d + 213) - 32044
        from by simp only [specJdn]; omega]
    rw [specFromJdn_comp (y + 4800) (d + 213) (by omega) (by omega) (by omega)]
    have hm : (5 * (d + 213) + 2) / 153 = 7 := by omega
    simp only [Prod.mk.injEq]
    refine ⟨by omega, by omega, by omega⟩
  · have hd2 := h30 (by norm_num)
    rw [show specJdn y 11 d
        = 365 * (y + 4800) + (y + 4800) / 4 - (y + 4800) / 100 + (y + 4800) / 400 + (d + 244) - 32044
        from by simp only [specJdn]; omega]
    rw [specFromJdn_comp (y + 4800) (d + 244) (by omega) (by omega) (by omega)]
    have hm : (5 * (d + 244) + 2) / 153 = 8 := by omega
    simp only [Prod.mk.injEq]
    refine ⟨by omega, by omega, by omega⟩
  · rw [show specJdn y 12 d
        = 365 * (y + 4800) + (y + 4800) / 4 - (y + 4800) / 100 + (y + 4800) / 400 + (d + 274) - 32044
        from by simp only [specJdn]; omega]
    rw [specFromJdn_comp (y + 4800) (d + 274) (by omega) (by omega) (by omega)]
    have hm : (5 * (d + 274) + 2) / 153 = 9 := by omega
    simp only [Prod.mk.injEq]
    refine ⟨by omega, by omega, by omega⟩

/-- Inverse-then-forward roundtrip of the spec's formulas, together with
validity of the produced triple: for any day count with `jdn + 32044 ≥ 0`
the inverse algorithm yields a valid date mapping back to `jdn`. -/
theorem specJdn_specFromJdn (jd Y M D : Int) (h : -32044 ≤ jd)
    (hE : specFromJdn jd = (Y, M, D)) :
    specJdn Y M D = jd ∧ validYmd Y M D ∧ -4800 ≤ Y := by
  simp only [specFromJdn, Prod.mk.injEq] at hE
  obtain ⟨hY, hM, hD⟩ := hE
  subst hY hM hD
  obtain ⟨b, hb⟩ : ∃ b, (4 * (jd + 32044) + 3) / 146097 = b := ⟨_, rfl⟩
  rw [hb]
  obtain ⟨c, hc⟩ : ∃ c, jd + 32044 - b * 146097 / 4 = c := ⟨_, rfl⟩
  rw [hc]
  obtain ⟨dd, hd⟩ : ∃ dd, (4 * c + 3) / 1461 = dd := ⟨_, rfl⟩
  rw [hd]
  obtain ⟨e, he⟩ : ∃ e, c - 1461 * dd / 4 = e := ⟨_, rfl⟩
  rw [he]
  obtain ⟨mm, hm⟩ : ∃ mm, (5 * e + 2) / 153 = mm := ⟨_, rfl⟩
  rw [hm]
  have hbb : 0 ≤ b ∧ 146097 * b ≤ 4 * (jd + 32044) + 3 ∧ 4 * (jd + 32044) + 3 < 146097 * (b + 1) := by
    omega
  have hcc : c = jd + 32044 - 36524 * b - b / 4 ∧ 0 ≤ c ∧ c ≤ 36524 := by omega
  have hdd : 0 ≤ dd ∧ dd ≤ 99 ∧ 1461 * dd ≤ 4 * c + 3 ∧ 4 * c + 3 < 1461 * (dd + 1) := by omega
  have hee : e = c - 365 * dd - dd / 4 ∧ 0 ≤ e ∧ e ≤ 365 := by omega
  have hmb : 0 ≤ mm ∧ mm ≤ 11 ∧ 153 * mm ≤ 5 * e + 2 ∧ 5 * e + 2 < 153 * (mm + 1) := by omega
  have hg1 : e = 365 → dd % 4 = 3 := by omega
  have hg2 : e = 365 ∧ dd = 99 → b % 4 = 3 := by omega
  have hj4 : (b * 100 + dd) / 4 = 25 * b + dd / 4 := by omega
  have hj100 : (b * 100 + dd) / 100 = b := by omega
  have hj400 : (b * 100 + dd) / 400 = b / 4 := by omega
  have hmb0 : 0 ≤ mm := hmb.1
  have hmb1 : mm ≤ 11 := hmb.2.1
  interval_cases mm
  all_goals try exact ⟨by simp only [specJdn]; norm_num; omega,
    by simp only [validYmd, isLeapProp]; omega, by omega⟩
  all_goals refine ⟨?_, by simp only [validYmd, isLeapProp]; omega, by omega⟩
  all_goals simp only [specJdn]
  all_goals norm_num
  all_goals have p4 : (b * 100 + dd - 4800 + 1 + 4800 - 1) / 4 = 25 * b + dd / 4 := by omega
  all_goals have p100 : (b * 100 + dd - 4800 + 1 + 4800 - 1) / 100 = b := by omega
  all_goals have p400 : (b * 100 + dd - 4800 + 1 + 4800 - 1) / 400 = b / 4 := by omega
  all_goals omega

/-- On day counts with `jd + 32044 ≥ 0` every operand of a division inside
`to_date` is nonnegative, so the code's truncating `i32` division agrees
with the spec's floor division: the computed triple is `specFromJdn`. -/
theorem toDateTriple_eq_spec (jd : Int) (h : -32044 ≤ jd) :
    toDateTriple jd = specFromJdn jd := by
  simp only [toDateTriple, specFromJdn]
  have h1 : (4 * (jd + 32044) + 3).tdiv 146097 = (4 * (jd + 32044) + 3) / 146097 :=
    Int.tdiv_eq_ediv (by omega) (by omega)
  rw [h1]
  have hb : 0 ≤ (4 * (jd + 32044) + 3) / 146097 := by omega
  have h2 : ((4 * (jd + 32044) + 3) / 146097 * 146097).tdiv 4
      = (4 * (jd + 32044) + 3) / 146097 * 146097 / 4 :=
    Int.tdiv_eq_ediv (by positivity) (by omega)
  rw [h2]
  have hc : 0 ≤ jd + 32044 - (4 * (jd + 32044) + 3) / 146097 * 146097 / 4 := by omega
  have h3 : (4 * (jd + 32044 - (4 * (jd + 32044) + 3) / 146097 * 146097 / 4) + 3).tdiv 1461
      = (4 * (jd + 32044 - (4 * (jd + 32044) + 3) / 146097 * 146097 / 4) + 3) / 1461 :=
    Int.tdiv_eq_ediv (by omega) (by omega)
  rw [h3]
  obtain ⟨c, hcdef⟩ : ∃ c, jd + 32044 - (4 * (jd + 32044) + 3) / 146097 * 146097 / 4 = c := ⟨_, rfl⟩
  rw [hcdef] at hc ⊢
  obtain ⟨dd, hddef⟩ : ∃ dd, (4 * c + 3) / 1461 = dd := ⟨_, rfl⟩
  rw [hddef]
  have hdd : 0 ≤ dd := by omega
  have h4 : (1461 * dd).tdiv 4 = 1461 * dd / 4 := Int.tdiv_eq_ediv (by positivity) (by omega)
  rw [h4]
  obtain ⟨e, hedef⟩ : ∃ e, c - 1461 * dd / 4 = e := ⟨_, rfl⟩
  rw [hedef]
  have he : 0 ≤ e := by omega
  have h5 : (5 * e + 2).tdiv 153 = (5 * e + 2) / 153 := Int.tdiv_eq_ediv (by omega) (by omega)
  rw [h5]
  obtain ⟨mm, hmdef⟩ : ∃ mm, (5 * e + 2) / 153 = mm := ⟨_, rfl⟩
  rw [hmdef]
  have hmm : 0 ≤ mm := by omega
  have h6 : (153 * mm + 2).tdiv 5 = (153 * mm + 2) / 5 := Int.tdiv_eq_ediv (by omega) (by omega)
  have h7 : mm.tdiv 10 = mm / 10 := Int.tdiv_eq_ediv (by omega) (by omega)
  rw [h6, h7]

/-- The wrapping `u32` core of `JulianDay::from`, evaluated: for in-range
March-based year and month indices the wrapped computation equals the exact
integer value of the formula. -/
theorem fromDateCore (dN mN yN : Nat) (hd1 : 1 ≤ dN) (hd2 : dN ≤ 31)
    (hm : mN ≤ 11) (hy : yN ≤ 266943) :
    u32ToI32 (wsub (wadd (wsub (wadd (wadd (wadd dN (wadd (wmul 153 mN) 2 / 5)) (wmul yN 365)) (yN / 4)) (yN / 100)) (yN / 400)) 32045)
      = (dN : Int) + (153 * (mN : Int) + 2) / 5 + 365 * (yN : Int)
          + (yN : Int) / 4 - (yN : Int) / 100 + (yN : Int) / 400 - 32045 := by
  obtain ⟨p1, hp1⟩ : ∃ w, wmul 153 mN = w := ⟨_, rfl⟩
  rw [hp1]
  have hp1B : p1 = 153 * mN := by unfold wmul at hp1; omega
  clear hp1
  obtain ⟨p2, hp2⟩ : ∃ w, wadd p1 2 = w := ⟨_, rfl⟩
  rw [hp2]
  have hp2B : p2 = 153 * mN + 2 := by unfold wadd at hp2; omega
  clear hp2 hp1B
  obtain ⟨q5, hq5⟩ : ∃ w, p2 / 5 = w := ⟨_, rfl⟩
  rw [hq5]
  have hq5B : 5 * q5 ≤ p2 ∧ p2 < 5 * q5 + 5 ∧ q5 ≤ 337 := by omega
  have hq5Z : (153 * (mN : Int) + 2) / 5 = (q5 : Int) := by omega
  rw [hq5Z]
  clear hq5 hq5Z hp2B
  have hq5b : q5 ≤ 337 := hq5B.2.2
  clear hq5B hm
  obtain ⟨t2, ht2⟩ : ∃ w, wmul yN 365 = w := ⟨_, rfl⟩
  rw [ht2]
  have ht2B : t2 = yN * 365 := by unfold wmul at ht2; omega
  clear ht2
  rw [show 365 * (yN : Int) = (t2 : Int) from by omega]
  obtain ⟨s1, hs1⟩ : ∃ w, wadd dN q5 = w := ⟨_, rfl⟩
  rw [hs1]
  have hs1B : s1 = dN + q5 := by unfold wadd at hs1; omega
  clear hs1
  rw [show (dN : Int) + (q5 : Int) = (s1 : Int) from by omega]
  have hs1b : s1 ≤ 368 := by omega
  clear hs1B hd1 hd2 hq5b
  obtain ⟨s2, hs2⟩ : ∃ w, wadd s1 t2 = w := ⟨_, rfl⟩
  rw [hs2]
  have hs2B : s2 = s1 + t2 := by unfold wadd at hs2; omega
  clear hs2
  rw [show (s1 : Int) + (t2 : Int) = (s2 : Int) from by omega]
  have hs2b : s2 ≤ 97434563 := by omega
  clear hs2B hs1b ht2B
  obtain ⟨s3, hs3⟩ : ∃ w, wadd s2 (yN / 4) = w := ⟨_, rfl⟩
  rw [hs3]
  have hs3B : s3 = s2 + yN / 4 ∧ s3 ≤ 97501299 := by unfold wadd at hs3; omega
  clear hs3
  rw [show (s2 : Int) + (yN : Int) / 4 = (s3 : Int) from by omega]
  clear hs2b
  obtain ⟨s4, hs4⟩ : ∃ w, wsub s3 (yN / 100) = w := ⟨_, rfl⟩
  rw [hs4]
  have hs4B : s4 + yN / 100 = s3 ∧ s4 ≤ 97501299 := by unfold wsub at hs4; omega
  clear hs4
  rw [show (s3 : Int) - (yN : Int) / 100 = (s4 : Int) from by omega]
  clear hs3B
  obtain ⟨s5, hs5⟩ : ∃ w, wadd s4 (yN / 400) = w := ⟨_, rfl⟩
  rw [hs5]
  have hs5B : s5 = s4 + yN / 400 ∧ s5 ≤ 97502000 := by unfold wadd at hs5; omega
  clear hs5
  rw [show (s4 : Int) + (yN : Int) / 400 = (s5 : Int) from by omega]
  clear hs4B
  rw [u32ToI32_wsub s5 32045 (by omega) (by norm_num)]
  omega

/-- On valid month/day fields and years in `[-4799, 262143]` the wrapping
`u32` computation of `JulianDay::from` produces exactly the spec's §4.1
Fliegel–Van Flandern value. -/
theorem fromDate_eq_spec (y : Int) (m d : Nat) (hm1 : 1 ≤ m) (hm2 : m ≤ 12)
    (hd1 : 1 ≤ d) (hd2 : d ≤ 31) (hy1 : -4799 ≤ y) (hy2 : y ≤ 262143) :
    (JulianDay.fromDate ⟨y, m, d⟩).day = specJdn y m d := by
  simp only [JulianDay.fromDate, specJdn]
  obtain ⟨sN, hs⟩ : ∃ s, wsub 14 m = s := ⟨_, rfl⟩
  rw [hs]
  have hsB : sN + m = 14 := by unfold wsub at hs; omega
  clear hs
  obtain ⟨aN, ha⟩ : ∃ a, sN / 12 = a := ⟨_, rfl⟩
  rw [ha]
  have haB : (m ≤ 2 → aN = 1) ∧ (3 ≤ m → aN = 0) ∧ aN ≤ 1 := by omega
  clear ha hsB
  obtain ⟨yU, hyU⟩ : ∃ u, i32ToU32 y = u := ⟨_, rfl⟩
  rw [hyU]
  have hyUB : (0 ≤ y → (yU : Int) = y) ∧ (y < 0 → (yU : Int) = y + 2 ^ 32) := by
    unfold i32ToU32 at hyU; omega
  clear hyU
  obtain ⟨w1, hw1⟩ : ∃ w, wadd yU 4800 = w := ⟨_, rfl⟩
  rw [hw1]
  have hw1B : (w1 : Int) = y + 4800 := by unfold wadd at hw1; omega
  clear hw1 hyUB
  obtain ⟨yN, hyN⟩ : ∃ w, wsub w1 aN = w := ⟨_, rfl⟩
  rw [hyN]
  have hyNB : (yN : Int) = y + 4800 - aN ∧ yN ≤ 266943 := by
    unfold wsub at hyN; omega
  clear hyN hw1B
  obtain ⟨w2, hw2⟩ : ∃ w, wmul 12 aN = w := ⟨_, rfl⟩
  rw [hw2]
  have hw2B : w2 = 12 * aN := by unfold wmul at hw2; omega
  clear hw2
  obtain ⟨w3, hw3⟩ : ∃ w, wadd m w2 = w := ⟨_, rfl⟩
  rw [hw3]
  have hw3B : w3 = m + 12 * aN := by unfold wadd at hw3; omega
  clear hw3 hw2B
  obtain ⟨mN, hmN⟩ : ∃ w, wsub w3 3 = w := ⟨_, rfl⟩
  rw [hmN]
  have hmNB : (mN : Int) = m + 12 * aN - 3 ∧ mN ≤ 11 := by unfold wsub at hmN; omega
  clear hmN hw3B
  rw [fromDateCore d mN yN hd1 hd2 (by omega) (by omega)]
  rw [show (14 - (m : Int)) / 12 = (aN : Int) from by omega]
  rw [show y + 4800 - (aN : Int) = (yN : Int) from by omega]
  rw [show (m : Int) + 12 * (aN : Int) - 3 = (mN : Int) from by omega]

/-!
## Validity bridges and monotonicity of the forward formula
-/

/-- The external date type's month/day validation expressed arithmetically. -/
theorem days_iff (y : Int) (m d : Nat) :
    (1 ≤ m ∧ m ≤ 12 ∧ 1 ≤ d ∧ d ≤ daysInMonth y m) ↔ validYmd y m d := by
  have hL : isLeapYear y = true ↔ (y % 4 = 0 ∧ ¬ y % 100 = 0) ∨ y % 400 = 0 := by
    unfold isLeapYear
    simp [Bool.or_eq_true, Bool.and_eq_true, beq_iff_eq, bne_iff_ne]
  unfold daysInMonth validYmd isLeapProp
  split_ifs with h1 h2 h3 <;> [rw [hL] at h2; rw [hL] at h2; skip; skip] <;>
    constructor <;> intro h <;> omega

/-- A `NaiveDate` is valid exactly when its fields satisfy the year bound and
the arithmetic month/day validity. -/
theorem valid_iff (dt : NaiveDate) :
    dt.Valid ↔ minYear ≤ dt.year ∧ dt.year ≤ maxYear ∧ validYmd dt.year dt.month dt.day := by
  obtain ⟨y, m, d⟩ := dt
  unfold NaiveDate.Valid NaiveDate.fromYmdOpt
  simp only
  constructor
  · intro h
    split at h
    · next hc => exact ⟨hc.1, hc.2.1, (days_iff y m d).1 ⟨hc.2.2.1, hc.2.2.2.1, hc.2.2.2.2⟩⟩
    · simp at h
  · rintro ⟨h1, h2, h3⟩
    obtain ⟨g1, g2, g3⟩ := (days_iff y m d).2 h3
    rw [if_pos ⟨h1, h2, g1, g2, g3⟩]

/-- Arithmetic description of `daysInMonth`. -/
theorem daysInMonth_spec (y : Int) (m : Nat) :
    (m = 2 → (isLeapProp y → (daysInMonth y m : Int) = 29) ∧ (¬ isLeapProp y → (daysInMonth y m : Int) = 28)) ∧
    ((m = 4 ∨ m = 6 ∨ m = 9 ∨ m = 11) → (daysInMonth y m : Int) = 30) ∧
    ((¬ m = 2 ∧ ¬ (m = 4 ∨ m = 6 ∨ m = 9 ∨ m = 11)) → (daysInMonth y m : Int) = 31) := by
  have hL : isLeapYear y = true ↔ (y % 4 = 0 ∧ ¬ y % 100 = 0) ∨ y % 400 = 0 := by
    unfold isLeapYear
    simp [Bool.or_eq_true, Bool.and_eq_true, beq_iff_eq, bne_iff_ne]
  unfold daysInMonth isLeapProp
  split_ifs with h1 h2 h3 <;> [rw [hL] at h2; rw [hL] at h2; skip; skip] <;> omega

/-- Strict monotonicity of the forward formula within one year. -/
theorem specJdn_lt_same_year (y m1 d1 m2 d2 : Int)
    (h1 : validYmd y m1 d1) (h2 : validYmd y m2 d2)
    (hlt : m1 < m2 ∨ (m1 = m2 ∧ d1 < d2)) :
    specJdn y m1 d1 < specJdn y m2 d2 := by
  obtain ⟨a1, a2, a3, a4, a5, a6⟩ := h1
  obtain ⟨b1, b2, b3, b4, b5, b6⟩ := h2
  unfold isLeapProp at a4 b4
  interval_cases m1 <;> interval_cases m2 <;> simp only [specJdn] <;> omega

/-- December 31 bounds every date of its year from above. -/
theorem specJdn_le_dec31 (y m d : Int) (h : validYmd y m d) :
    specJdn y m d ≤ specJdn y 12 31 := by
  obtain ⟨a1, a2, a3, a4, a5, a6⟩ := h
  unfold isLeapProp at a4
  interval_cases m <;> simp only [specJdn] <;> omega

/-- January 1 bounds every date of its year from below. -/
theorem specJdn_jan1_le (y m d : Int) (h : validYmd y m d) :
    specJdn y 1 1 ≤ specJdn y m d := by
  obtain ⟨a1, a2, a3, a4, a5, a6⟩ := h
  unfold isLeapProp at a4
  interval_cases m <;> simp only [specJdn] <;> omega

/-- Monotonicity of the formula in the year at January 1. -/
theorem specJdn_jan1_mono (y y' : Int) (h : y ≤ y') :
    specJdn y 1 1 ≤ specJdn y' 1 1 := by
  simp only [specJdn]
  omega

/-- Monotonicity of the formula in the year at December 31. -/
theorem specJdn_dec31_mono (y y' : Int) (h : y ≤ y') :
    specJdn y 12 31 ≤ specJdn y' 12 31 := by
  simp only [specJdn]
  omega

/-- December 31 is followed by January 1 of the next year. -/
theorem specJdn_step_year (y : Int) : specJdn y 12 31 + 1 = specJdn (y + 1) 1 1 := by
  simp only [specJdn]
  omega

/-- Full strict monotonicity of the forward formula in chronological order. -/
theorem specJdn_lt (y1 m1 d1 y2 m2 d2 : Int)
    (h1 : validYmd y1 m1 d1) (h2 : validYmd y2 m2 d2)
    (hlt : y1 < y2 ∨ (y1 = y2 ∧ (m1 < m2 ∨ (m1 = m2 ∧ d1 < d2)))) :
    specJdn y1 m1 d1 < specJdn y2 m2 d2 := by
  rcases hlt with hy | ⟨rfl, hmd⟩
  · have u1 := specJdn_le_dec31 y1 m1 d1 h1
    have u2 := specJdn_step_year y1
    have u3 := specJdn_jan1_mono (y1 + 1) y2 (by omega)
    have u4 := specJdn_jan1_le y2 m2 d2 h2
    omega
  · exact specJdn_lt_same_year y1 m1 d1 m2 d2 h1 h2 hmd

/-- Within a month, the formula advances by one per day. -/
theorem specJdn_step_day (y m d : Int) : specJdn y m (d + 1) = specJdn y m d + 1 := by
  simp only [specJdn]
  omega

/-- The last day of a month is followed by the first day of the next month. -/
theorem specJdn_step_month (y m d : Int) (hm1 : 1 ≤ m) (hm2 : m ≤ 11)
    (hmax : (m = 2 → (isLeapProp y → d = 29) ∧ (¬ isLeapProp y → d = 28)) ∧
            ((m = 4 ∨ m = 6 ∨ m = 9 ∨ m = 11) → d = 30) ∧
            ((m = 1 ∨ m = 3 ∨ m = 5 ∨ m = 7 ∨ m = 8 ∨ m = 10) → d = 31)) :
    specJdn y (m + 1) 1 = specJdn y m d + 1 := by
  obtain ⟨x1, x2, x3⟩ := hmax
  unfold isLeapProp at x1
  interval_cases m <;> simp only [specJdn] <;> omega

/-!
## Assembly lemmas
-/

/-- The cast `i32 as u32` is the identity on small nonnegative values. -/
theorem i32ToU32_small (x : Int) (h1 : 0 ≤ x) (h2 : x < 2 ^ 31) :
    i32ToU32 x = x.toNat := by
  unfold i32ToU32
  omega

/-- Endpoint values of the formula (computed). -/
theorem specJdn_bounds_literal :
    specJdn 0 1 1 = 1721060 ∧ specJdn 262143 12 31 = 97467189 ∧
    specJdn (-1) 12 31 = 1721059 ∧ specJdn 262144 1 1 = 97467190 := by
  refine ⟨by decide, by decide, by decide, by decide⟩

/-- Main characterization of `to_date` on the supported day-count range:
it succeeds, returns exactly the triple of the spec's inverse algorithm, and
that triple is a valid date mapping back to `jd` under the forward formula. -/
theorem to_date_some (jd Y M D : Int) (h1 : -32044 ≤ jd) (h2 : jd ≤ 97467189)
    (hE : specFromJdn jd = (Y, M, D)) :
    (JulianDay.new jd).to_date = some ⟨Y, M.toNat, D.toNat⟩ ∧
    specJdn Y M D = jd ∧ validYmd Y M D ∧
    -4800 ≤ Y ∧ Y ≤ maxYear ∧ (1721060 ≤ jd → 0 ≤ Y) ∧
    (M.toNat : Int) = M ∧ (D.toNat : Int) = D := by
  obtain ⟨hspec, hvalid, hge⟩ := specJdn_specFromJdn jd Y M D h1 hE
  obtain ⟨l1, l2, l3, l4⟩ := specJdn_bounds_literal
  have hYle : Y ≤ maxYear := by
    by_contra hY
    have hx1 := specJdn_jan1_le Y M D hvalid
    have hx2 := specJdn_jan1_mono 262144 Y (by unfold maxYear at hY; omega)
    omega
  have hY0 : 1721060 ≤ jd → 0 ≤ Y := by
    intro hjd
    by_contra hY
    have hx1 := specJdn_le_dec31 Y M D hvalid
    have hx2 := specJdn_dec31_mono Y (-1) (by omega)
    omega
  have hMc : (M.toNat : Int) = M := by
    obtain ⟨v1, v2, -⟩ := hvalid
    omega
  have hDc : (D.toNat : Int) = D := by
    obtain ⟨-, -, v3, -⟩ := hvalid
    omega
  refine ⟨?_, hspec, hvalid, hge, hYle, hY0, hMc, hDc⟩
  simp only [JulianDay.to_date, JulianDay.new, JulianDay.inner]
  rw [toDateTriple_eq_spec jd h1, hE]
  simp only
  rw [i32ToU32_small M (by obtain ⟨v1, -⟩ := hvalid; omega)
        (by obtain ⟨-, v2, -⟩ := hvalid; omega)]
  rw [i32ToU32_small D (by obtain ⟨-, -, v3, -⟩ := hvalid; omega)
        (by obtain ⟨-, -, -, -, -, v6⟩ := hvalid; omega)]
  unfold NaiveDate.fromYmdOpt
  rw [if_pos]
  refine ⟨by unfold minYear; omega, hYle, ?_, ?_, ?_, ?_⟩ <;>
    [skip; skip; skip; skip] <;>
    first
      | exact ((days_iff Y M.toNat D.toNat).2 (by rw [hMc, hDc]; exact hvalid)).1
      | exact ((days_iff Y M.toNat D.toNat).2 (by rw [hMc, hDc]; exact hvalid)).2.1
      | exact ((days_iff Y M.toNat D.toNat).2 (by rw [hMc, hDc]; exact hvalid)).2.2.1
      | exact ((days_iff Y M.toNat D.toNat).2 (by rw [hMc, hDc]; exact hvalid)).2.2.2

/-- `JulianDay::from` on a valid date with year at least `-4799` computes the
spec's formula (claim-level form, via the `u32` bridge). -/
theorem fromDate_spec_of_valid (dt : NaiveDate) (hV : dt.Valid) (hy : -4799 ≤ dt.year) :
    (JulianDay.fromDate dt).day = specJdn dt.year dt.month dt.day := by
  obtain ⟨y, m, d⟩ := dt
  obtain ⟨h1, h2, hvalid⟩ := (valid_iff _).1 hV
  obtain ⟨v1, v2, v3, -, -, v6⟩ := hvalid
  exact fromDate_eq_spec y m d (by exact_mod_cast v1) (by exact_mod_cast v2)
    (by exact_mod_cast v3) (by exact_mod_cast v6) hy (by unfold maxYear at h2; exact h2)

/-- The formula value of a valid date with nonnegative year lies in the
supported day-count range. -/
theorem specJdn_range (dt : NaiveDate) (hV : dt.Valid) (hy : 0 ≤ dt.year) :
    1721060 ≤ specJdn dt.year dt.month dt.day ∧
      specJdn dt.year dt.month dt.day ≤ 97467189 := by
  obtain ⟨h1, h2, hvalid⟩ := (valid_iff _).1 hV
  obtain ⟨l1, l2, -, -⟩ := specJdn_bounds_literal
  have u1 := specJdn_jan1_mono 0 dt.year hy
  have u2 := specJdn_jan1_le dt.year dt.month dt.day hvalid
  have u3 := specJdn_le_dec31 dt.year dt.month dt.day hvalid
  have u4 := specJdn_dec31_mono dt.year 262143 (by unfold maxYear at h2; omega)
  omega

/-- Boolean leap-year test versus its propositional form. -/
theorem isLeapYear_iff (y : Int) : isLeapYear y = true ↔ isLeapProp y := by
  unfold isLeapYear isLeapProp
  simp [Bool.or_eq_true, Bool.and_eq_true, beq_iff_eq, bne_iff_ne]

/-- Stepping over the end of a month (months 1 through 11). -/
theorem specJdn_step_month_nat (y : Int) (m d : Nat) (hm1 : 1 ≤ m) (hm2 : m ≤ 11)
    (hd : d = daysInMonth y m) :
    specJdn y ((m : Int) + 1) 1 = specJdn y m d + 1 := by
  interval_cases m
  · rw [show daysInMonth y 1 = 31 from by simp [daysInMonth]] at hd
    subst hd; simp only [specJdn]; push_cast; omega
  · by_cases hL : isLeapProp y
    · rw [show daysInMonth y 2 = 29 from by
          unfold daysInMonth
          rw [if_pos rfl, if_pos ((isLeapYear_iff y).2 hL)]] at hd
      subst hd
      unfold isLeapProp at hL
      simp only [specJdn]; push_cast; omega
    · rw [show daysInMonth y 2 = 28 from by
          unfold daysInMonth
          rw [if_pos rfl, if_neg (fun hb => hL ((isLeapYear_iff y).1 hb))]] at hd
      subst hd
      unfold isLeapProp at hL
      simp only [specJdn]; push_cast; omega
  · rw [show daysInMonth y 3 = 31 from by simp [daysInMonth]] at hd
    subst hd; simp only [specJdn]; push_cast; omega
  · rw [show daysInMonth y 4 = 30 from by simp [daysInMonth]] at hd
    subst hd; simp only [specJdn]; push_cast; omega
  · rw [show daysInMonth y 5 = 31 from by simp [daysInMonth]] at hd
    subst hd; simp only [specJdn]; push_cast; omega
  · rw [show daysInMonth y 6 = 30 from by simp [daysInMonth]] at hd
    subst hd; simp only [specJdn]; push_cast; omega
  · rw [show daysInMonth y 7 = 31 from by simp [daysInMonth]] at hd
    subst hd; simp only [specJdn]; push_cast; omega
  · rw [show daysInMonth y 8 = 31 from by simp [daysInMonth]] at hd
    subst hd; simp only [specJdn]; push_cast; omega
  · rw [show daysInMonth y 9 = 30 from by simp [daysInMonth]] at hd
    subst hd; simp only [specJdn]; push_cast; omega
  · rw [show daysInMonth y 10 = 31 from by simp [daysInMonth]] at hd
    subst hd; simp only [specJdn]; push_cast; omega
  · rw [show daysInMonth y 11 = 30 from by simp [daysInMonth]] at hd
    subst hd; simp only [specJdn]; push_cast; omega

/-- The successor date's formula value is one more than the date's. -/
theorem specJdn_next (y : Int) (m d : Nat)
    (h : 1 ≤ m ∧ m ≤ 12 ∧ 1 ≤ d ∧ d ≤ daysInMonth y m) :
    specJdn (NaiveDate.next ⟨y, m, d⟩).year ((NaiveDate.next ⟨y, m, d⟩).month : Int)
        ((NaiveDate.next ⟨y, m, d⟩).day : Int)
      = specJdn y m d + 1 := by
  unfold NaiveDate.next
  split_ifs with hd hm
  · show specJdn y (m : Int) ((d + 1 : Nat) : Int) = specJdn y m d + 1
    rw [show ((d + 1 : Nat) : Int) = (d : Int) + 1 from by push_cast; ring]
    exact specJdn_step_day y m d
  · show specJdn y ((m + 1 : Nat) : Int) ((1 : Nat) : Int) = specJdn y m d + 1
    have hd' : ¬ (d < daysInMonth y m) := hd
    have hm' : m < 12 := hm
    have hdd : d = daysInMonth y m := by omega
    rw [show ((m + 1 : Nat) : Int) = (m : Int) + 1 from by push_cast; ring]
    rw [show ((1 : Nat) : Int) = 1 from by norm_num]
    exact specJdn_step_month_nat y m d h.1 (by omega) hdd
  · show specJdn (y + 1) ((1 : Nat) : Int) ((1 : Nat) : Int) = specJdn y m d + 1
    have hd' : ¬ (d < daysInMonth y m) := hd
    have hm' : ¬ (m < 12) := hm
    have hm12 : m = 12 := by omega
    subst hm12
    have hd31 : d = 31 := by
      rw [show daysInMonth y 12 = 31 from by simp [daysInMonth]] at h hd'
      omega
    subst hd31
    rw [show ((1 : Nat) : Int) = 1 from by norm_num]
    rw [show ((12 : Nat) : Int) = 12 from by norm_num, show ((31 : Nat) : Int) = 31 from by norm_num]
    exact (specJdn_step_year y).symm

/-- Claim-level consecutive-day step for `JulianDay::from`. -/
theorem fromDate_next (dt : NaiveDate) (hV : dt.Valid) (hVn : dt.next.Valid) (hy : 0 ≤ dt.year) :
    (JulianDay.fromDate dt.next).day = (JulianDay.fromDate dt).day + 1 := by
  have hyn : 0 ≤ dt.next.year := by
    unfold NaiveDate.next
    split_ifs
    · show (0 : Int) ≤ dt.year
      omega
    · show (0 : Int) ≤ dt.year
      omega
    · show (0 : Int) ≤ dt.year + 1
      omega
  rw [fromDate_spec_of_valid dt hV (by omega), fromDate_spec_of_valid dt.next hVn (by omega)]
  obtain ⟨-, -, hvalid⟩ := (valid_iff dt).1 hV
  have hNat := (days_iff dt.year dt.month dt.day).mpr hvalid
  obtain ⟨y, m, d⟩ := dt
  exact specJdn_next y m d hNat

/-- Claim-level strict order preservation for `JulianDay::from`. -/
theorem fromDate_lt (d1 d2 : NaiveDate) (h1 : d1.Valid) (h2 : d2.Valid) (hy : 0 ≤ d1.year)
    (hb : d1.before d2) : (JulianDay.fromDate d1).day < (JulianDay.fromDate d2).day := by
  obtain ⟨-, -, v1⟩ := (valid_iff d1).1 h1
  obtain ⟨-, -, v2⟩ := (valid_iff d2).1 h2
  have hy2 : 0 ≤ d2.year := by
    unfold NaiveDate.before at hb
    rcases hb with h | ⟨he, -⟩
    · omega
    · omega
  rw [fromDate_spec_of_valid d1 h1 (by omega), fromDate_spec_of_valid d2 h2 (by omega)]
  apply specJdn_lt _ _ _ _ _ _ v1 v2
  unfold NaiveDate.before at hb
  rcases hb with h | ⟨he, h⟩
  · left; exact h
  · right
    refine ⟨he, ?_⟩
    rcases h with h | ⟨he2, h⟩
    · left; exact_mod_cast h
    · right; exact ⟨by exact_mod_cast he2, by exact_mod_cast h⟩

/-- Eta rule for the one-field struct `JulianDay`. -/
theorem jdEta (j : JulianDay) : JulianDay.new j.day = j := rfl

/-- Injectivity of the forward formula on valid dates. -/
theorem specJdn_inj (d1 d2 : NaiveDate) (h1 : d1.Valid) (h2 : d2.Valid)
    (he : specJdn d1.year d1.month d1.day = specJdn d2.year d2.month d2.day) :
    d1 = d2 := by
  obtain ⟨-, -, v1⟩ := (valid_iff d1).1 h1
  obtain ⟨-, -, v2⟩ := (valid_iff d2).1 h2
  by_contra hne
  obtain ⟨y1, m1, dd1⟩ := d1
  obtain ⟨y2, m2, dd2⟩ := d2
  have he' : specJdn y1 m1 dd1 = specJdn y2 m2 dd2 := he
  have v1' : validYmd y1 m1 dd1 := v1
  have v2' : validYmd y2 m2 dd2 := v2
  have htri : (y1 < y2 ∨ (y1 = y2 ∧ ((m1 : Int) < m2 ∨ ((m1 : Int) = m2 ∧ (dd1 : Int) < dd2)))) ∨
      (y2 < y1 ∨ (y2 = y1 ∧ ((m2 : Int) < m1 ∨ ((m2 : Int) = m1 ∧ (dd2 : Int) < dd1)))) := by
    simp only [NaiveDate.mk.injEq] at hne
    omega
  rcases htri with h | h
  · have := specJdn_lt y1 m1 dd1 y2 m2 dd2 v1' v2' h
    omega
  · have := specJdn_lt y2 m2 dd2 y1 m1 dd1 v2' v1' h
    omega

/-- Roundtrip calendar → day number → calendar (shared core). -/
theorem to_date_fromDate (dt : NaiveDate) (hV : dt.Valid) (hy : 0 ≤ dt.year) :
    (JulianDay.fromDate dt).to_date = some dt := by
  obtain ⟨r1, r2⟩ := specJdn_range dt hV hy
  have hb := fromDate_spec_of_valid dt hV (by omega)
  obtain ⟨h1, h2, hvalid⟩ := (valid_iff dt).1 hV
  have hE := specFromJdn_specJdn dt.year dt.month dt.day hvalid
  obtain ⟨hsome, -⟩ :=
    to_date_some (specJdn dt.year dt.month dt.day) dt.year dt.month dt.day (by omega) (by omega) hE
  have hfd : JulianDay.fromDate dt = JulianDay.new (specJdn dt.year dt.month dt.day) := by
    rw [← hb]
    exact (jdEta (JulianDay.fromDate dt)).symm
  rw [hfd, hsome]
  rfl

/-- Master characterization of `to_date` on the supported range (shared core). -/
theorem to_date_master (jd : Int) (h1 : -32044 ≤ jd) (h2 : jd ≤ 97467189) :
    ∃ dt : NaiveDate, (JulianDay.new jd).to_date = some dt ∧ dt.Valid ∧
      specJdn dt.year dt.month dt.day = jd ∧ (1721060 ≤ jd → 0 ≤ dt.year) := by
  obtain ⟨⟨Y, M, D⟩, hE⟩ : ∃ t, specFromJdn jd = t := ⟨_, rfl⟩
  obtain ⟨hsome, hspec, hvalid, hge, hle, hY0, hMc, hDc⟩ := to_date_some jd Y M D h1 h2 hE
  refine ⟨⟨Y, M.toNat, D.toNat⟩, hsome, ?_, ?_, fun h => hY0 h⟩
  · rw [valid_iff]
    refine ⟨by show minYear ≤ Y; unfold minYear; omega, hle, ?_⟩
    show validYmd Y (M.toNat : Int) (D.toNat : Int)
    rw [hMc, hDc]
    exact hvalid
  · show specJdn Y (M.toNat : Int) (D.toNat : Int) = jd
    rw [hMc, hDc]
    exact hspec

/-- Roundtrip day number → calendar → day number (shared core). -/
theorem from_to_date (jd : Int) (h1 : 1721060 ≤ jd) (h2 : jd ≤ 97467189) :
    ∃ dt : NaiveDate, (JulianDay.new jd).to_date = some dt ∧
      JulianDay.fromDate dt = JulianDay.new jd := by
  obtain ⟨dt, hsome, hV, hspec, hy0⟩ := to_date_master jd (by omega) h2
  refine ⟨dt, hsome, ?_⟩
  have hb := fromDate_spec_of_valid dt hV (by have := hy0 h1; omega)
  rw [hspec] at hb
  rw [← hb]
  exact (jdEta (JulianDay.fromDate dt)).symm

/-- Unfolding `inner` to the field projection. -/
theorem jd_inner_day (j : JulianDay) : j.inner = j.day := rfl

/-- Computation rule for `ModifiedJulianDay.inner`. -/
theorem mjd_mk_inner (x : Int) : (ModifiedJulianDay.mk x).inner = x := rfl

/-- The affine relation of the modified conversion, read off the code. -/
theorem mjd_affine (dt : NaiveDate) :
    (ModifiedJulianDay.fromDate dt).inner = (JulianDay.fromDate dt).inner - 2400001 :=
  mjd_mk_inner ((JulianDay.fromDate dt).inner - 2400001)

/-!
## Claims
-/

/-- C1: Round-trip identity (calendar to day-number to calendar): for every
valid `CalendarDate` D in the supported range (valid dates with
`0 ≤ year`, the years on which the `u32`-cast in `from` is harmless),
`JulianDay::from(D).to_date() == D`. -/
theorem claim_C1 (dt : NaiveDate) (hV : dt.Valid) (hy : 0 ≤ dt.year) :
    (JulianDay.fromDate dt).to_date = some dt :=
  to_date_fromDate dt hV hy

/-- C1 witness at the crate's own doc-example date 2020-02-18. -/
theorem claim_C1_witness : (JulianDay.fromDate ⟨2020, 2, 18⟩).to_date = some ⟨2020, 2, 18⟩ :=
  claim_C1 ⟨2020, 2, 18⟩ (by decide) (by decide)

/-- C2: Round-trip identity (day-number to calendar to day-number): for every
integer J in the supported range `[1721060, 97467189]`
(= `specJdn 0 1 1` through `specJdn 262143 12 31`),
`JulianDay::from(JulianDay::new(J).to_date()) == JulianDay::new(J)`. -/
theorem claim_C2 (J : Int) (h1 : 1721060 ≤ J) (h2 : J ≤ 97467189) :
    ∃ dt : NaiveDate, (JulianDay.new J).to_date = some dt ∧
      JulianDay.fromDate dt = JulianDay.new J :=
  from_to_date J h1 h2

/-- C2 witness at J = 2458898 (the crate's test value). -/
theorem claim_C2_witness :
    ∃ dt : NaiveDate, (JulianDay.new 2458898).to_date = some dt ∧
      JulianDay.fromDate dt = JulianDay.new 2458898 :=
  claim_C2 2458898 (by norm_num) (by norm_num)

/-- C3 counterexample: the proleptic-Gregorian date −10000-01-01 is a valid
`CalendarDate`, yet `JulianDay::from` does not return the Fliegel–Van
Flandern value for it: the year is cast `as u32`, so for sufficiently
negative years the `u32` divisions act on the wrapped year and the result
diverges from the formula. -/
theorem claim_C3_counterexample :
    NaiveDate.fromYmdOpt (-10000) 1 1 = some ⟨-10000, 1, 1⟩ ∧
    (JulianDay.fromDate ⟨-10000, 1, 1⟩).day ≠ specJdn (-10000) 1 1 :=
  ⟨by decide, by decide⟩

/-- C3 (amended): for every valid `CalendarDate` with `year ≥ -4799` (so that
the March-based year `y = year + 4800 - a` is nonnegative and the unsigned
computation coincides with the signed formula), `JulianDay::from` returns
exactly the Fliegel–Van Flandern value of spec §4.1. -/
theorem claim_C3 (dt : NaiveDate) (hV : dt.Valid) (hy : -4799 ≤ dt.year) :
    (JulianDay.fromDate dt).day = specJdn dt.year dt.month dt.day :=
  fromDate_spec_of_valid dt hV hy

/-- C3 witness at 1858-11-17. -/
theorem claim_C3_witness : (JulianDay.fromDate ⟨1858, 11, 17⟩).day = specJdn 1858 11 17 :=
  claim_C3 ⟨1858, 11, 17⟩ (by decide) (by decide)

/-- C4: for every day-number in the supported range `[-32044, 97467189]`,
`to_date` returns exactly the `CalendarDate` given by the inverse
Fliegel–Van Flandern algorithm of spec §4.2, that date's forward JDN equals
the input, and it is the unique valid date with that property. -/
theorem claim_C4 (jd : Int) (h1 : -32044 ≤ jd) (h2 : jd ≤ 97467189) :
    (JulianDay.new jd).to_date
        = some ⟨(specFromJdn jd).1, (specFromJdn jd).2.1.toNat, (specFromJdn jd).2.2.toNat⟩ ∧
    specJdn (specFromJdn jd).1 (specFromJdn jd).2.1 (specFromJdn jd).2.2 = jd ∧
    ∀ dt' : NaiveDate, dt'.Valid → specJdn dt'.year dt'.month dt'.day = jd →
      dt' = ⟨(specFromJdn jd).1, (specFromJdn jd).2.1.toNat, (specFromJdn jd).2.2.toNat⟩ := by
  obtain ⟨⟨Y, M, D⟩, hE⟩ : ∃ t, specFromJdn jd = t := ⟨_, rfl⟩
  rw [hE]
  obtain ⟨hsome, hspec, hvalid, hge, hle, hY0, hMc, hDc⟩ := to_date_some jd Y M D h1 h2 hE
  have hVd : (⟨Y, M.toNat, D.toNat⟩ : NaiveDate).Valid := by
    rw [valid_iff]
    refine ⟨by show minYear ≤ Y; unfold minYear; omega, hle, ?_⟩
    show validYmd Y (M.toNat : Int) (D.toNat : Int)
    rw [hMc, hDc]
    exact hvalid
  refine ⟨hsome, hspec, ?_⟩
  intro dt' hV' hsp'
  apply specJdn_inj dt' ⟨Y, M.toNat, D.toNat⟩ hV' hVd
  show specJdn dt'.year dt'.month dt'.day = specJdn Y (M.toNat : Int) (D.toNat : Int)
  rw [hMc, hDc, hspec]
  exact hsp'

/-- C4 witness at jd = 2400001. -/
theorem claim_C4_witness :
    (JulianDay.new 2400001).to_date
        = some ⟨(specFromJdn 2400001).1, (specFromJdn 2400001).2.1.toNat, (specFromJdn 2400001).2.2.toNat⟩ ∧
    specJdn (specFromJdn 2400001).1 (specFromJdn 2400001).2.1 (specFromJdn 2400001).2.2 = 2400001 :=
  ⟨(claim_C4 2400001 (by norm_num) (by norm_num)).1,
   (claim_C4 2400001 (by norm_num) (by norm_num)).2.1⟩

/-- C5: Affine consistency: for every `CalendarDate` D,
`ModifiedJulianDay::from(D).inner() == JulianDay::from(D).inner() - 2400001`;
the modified conversion is exactly `JulianDay::from` followed by subtracting
the constant 2400001 (it is definitionally so in the code). -/
theorem claim_C5 (dt : NaiveDate) :
    (ModifiedJulianDay.fromDate dt).inner = (JulianDay.fromDate dt).inner - 2400001 :=
  mjd_affine dt

/-- C6: MJD round-trip: for every valid `CalendarDate` D in the supported
range (valid dates with `0 ≤ year`),
`ModifiedJulianDay::from(D).to_date() == D`. -/
theorem claim_C6 (dt : NaiveDate) (hV : dt.Valid) (hy : 0 ≤ dt.year) :
    (ModifiedJulianDay.fromDate dt).to_date = some dt := by
  show (JulianDay.new ((ModifiedJulianDay.fromDate dt).inner + 2400001)).to_date = some dt
  rw [mjd_affine dt]
  rw [show (JulianDay.fromDate dt).inner - 2400001 + 2400001 = (JulianDay.fromDate dt).inner from by
    omega]
  rw [jd_inner_day, jdEta]
  exact to_date_fromDate dt hV hy

/-- C6 witness at 2014-12-14. -/
theorem claim_C6_witness : (ModifiedJulianDay.fromDate ⟨2014, 12, 14⟩).to_date = some ⟨2014, 12, 14⟩ :=
  claim_C6 ⟨2014, 12, 14⟩ (by decide) (by decide)

/-- C7: Monotonic step: for consecutive calendar days D and D+1 in the
supported range, `JulianDay::from(D+1).inner() == JulianDay::from(D).inner() + 1`,
and hence for chronologically ordered dates D1 < D2,
`JulianDay::from(D1).inner() < JulianDay::from(D2).inner()`. -/
theorem claim_C7 :
    (∀ dt : NaiveDate, dt.Valid → dt.next.Valid → 0 ≤ dt.year →
        (JulianDay.fromDate dt.next).inner = (JulianDay.fromDate dt).inner + 1) ∧
    (∀ d1 d2 : NaiveDate, d1.Valid → d2.Valid → 0 ≤ d1.year → d1.before d2 →
        (JulianDay.fromDate d1).inner < (JulianDay.fromDate d2).inner) := by
  constructor
  · intro dt hV hVn hy
    rw [jd_inner_day, jd_inner_day]
    exact fromDate_next dt hV hVn hy
  · intro d1 d2 h1 h2 hy hb
    rw [jd_inner_day, jd_inner_day]
    exact fromDate_lt d1 d2 h1 h2 hy hb

/-- C7 witness: the step at 2020-02-18 and the order 2020-02-18 < 2020-02-19. -/
theorem claim_C7_witness :
    (JulianDay.fromDate (NaiveDate.next ⟨2020, 2, 18⟩)).inner
        = (JulianDay.fromDate ⟨2020, 2, 18⟩).inner + 1 ∧
    (JulianDay.fromDate ⟨2020, 2, 18⟩).inner < (JulianDay.fromDate ⟨2020, 2, 19⟩).inner :=
  ⟨claim_C7.1 ⟨2020, 2, 18⟩ (by decide) (by decide) (by decide),
   claim_C7.2 ⟨2020, 2, 18⟩ ⟨2020, 2, 19⟩ (by decide) (by decide) (by decide) (by decide)⟩

/-- C8: the literal fixtures of spec §8.6 hold exactly, in both directions:
2020-02-18 ⇄ JulianDay 2458898; 1858-11-17 ⇄ ModifiedJulianDay 0 ⇄
JulianDay 2400001; 1858-11-18 ⇄ MJD 1; 1858-11-16 ⇄ MJD −1;
2014-12-14 ⇄ MJD 57005. -/
theorem claim_C8 :
    (JulianDay.fromDate ⟨2020, 2, 18⟩ = JulianDay.new 2458898 ∧
      (JulianDay.new 2458898).to_date = some ⟨2020, 2, 18⟩) ∧
    (ModifiedJulianDay.fromDate ⟨1858, 11, 17⟩ = ModifiedJulianDay.new 0 ∧
      (ModifiedJulianDay.new 0).to_date = some ⟨1858, 11, 17⟩ ∧
      JulianDay.fromDate ⟨1858, 11, 17⟩ = JulianDay.new 2400001 ∧
      (JulianDay.new 2400001).to_date = some ⟨1858, 11, 17⟩) ∧
    (ModifiedJulianDay.fromDate ⟨1858, 11, 18⟩ = ModifiedJulianDay.new 1 ∧
      (ModifiedJulianDay.new 1).to_date = some ⟨1858, 11, 18⟩) ∧
    (ModifiedJulianDay.fromDate ⟨1858, 11, 16⟩ = ModifiedJulianDay.new (-1) ∧
      (ModifiedJulianDay.new (-1)).to_date = some ⟨1858, 11, 16⟩) ∧
    (ModifiedJulianDay.fromDate ⟨2014, 12, 14⟩ = ModifiedJulianDay.new 57005 ∧
      (ModifiedJulianDay.new 57005).to_date = some ⟨2014, 12, 14⟩) :=
  ⟨⟨by decide, by decide⟩, ⟨by decide, by decide, by decide, by decide⟩,
   ⟨by decide, by decide⟩, ⟨by decide, by decide⟩, ⟨by decide, by decide⟩⟩

/-- C9: totality of `to_date` on the supported range `[-32044, 97467189]`:
every such day-number maps to exactly one valid `CalendarDate`; in
particular the `NaiveDate` construction at the end of `to_date` never
fails there. -/
theorem claim_C9 (jd : Int) (h1 : -32044 ≤ jd) (h2 : jd ≤ 97467189) :
    ∃ dt : NaiveDate, (JulianDay.new jd).to_date = some dt ∧ dt.Valid := by
  obtain ⟨dt, ha, hb, -, -⟩ := to_date_master jd h1 h2
  exact ⟨dt, ha, hb⟩

/-- C9 witness at the bottom of the supported range. -/
theorem claim_C9_witness :
    ∃ dt : NaiveDate, (JulianDay.new (-32044)).to_date = some dt ∧ dt.Valid :=
  claim_C9 (-32044) (by norm_num) (by norm_num)

/-- C10: `JulianDay::from` casts the year `as u32` and performs the whole
§4.1 computation in unsigned 32-bit arithmetic (modulo `2 ^ 32`),
reinterpreting the result `as i32`; the wrapped year of a negative-year date
is `2 ^ 32 + year` (two's complement), and the result can therefore diverge
from signed evaluation of the formula (witnessed at −10000-01-01). -/
theorem claim_C10 :
    (∀ dt : NaiveDate, JulianDay.fromDate dt
        = ⟨u32ToI32 (wrapJdnU32 (i32ToU32 dt.year) dt.month dt.day)⟩) ∧
    (∀ dt : NaiveDate, minYear ≤ dt.year → dt.year < 0 →
        (i32ToU32 dt.year : Int) = 2 ^ 32 + dt.year) ∧
    (JulianDay.fromDate ⟨-10000, 1, 1⟩).inner ≠ specJdn (-10000) 1 1 := by
  refine ⟨fun dt => rfl, fun dt hm h0 => ?_, by decide⟩
  unfold i32ToU32 minYear at *
  omega

/-- C10 witness at −10000-01-01. -/
theorem claim_C10_witness :
    JulianDay.fromDate ⟨-10000, 1, 1⟩
        = ⟨u32ToI32 (wrapJdnU32 (i32ToU32 (-10000)) 1 1)⟩ ∧
    (i32ToU32 (-10000 : Int) : Int) = 2 ^ 32 + (-10000) :=
  ⟨claim_C10.1 ⟨-10000, 1, 1⟩, claim_C10.2.1 ⟨-10000, 1, 1⟩ (by decide) (by decide)⟩
